import Mathlib

/-
Verification development for the pycdft core: the charge-transfer constraint
weight machinery (pycdft/constraint/charge_transfer.py) and the electronic
coupling pipeline (pycdft/elcoupling/elcoupling.py).

Modelling conventions of the shallow embedding:
* numpy real arrays over a real-space grid are modelled as functions `ι → ℚ`
  from an abstract grid-index type into the rationals (the code works with
  real dtype arrays; all wavefunctions are real at the Gamma point, so
  `np.conjugate` is the identity and is dropped);
* elementwise numpy expressions become pointwise function definitions;
  an in-place masked assignment `w[mask] = 0` followed by no further writes
  is modelled by the final value of each grid point (an `if` on the mask);
* a spin-resolved field of shape (nchan, grid) is modelled as a
  `List (ι → ℚ)` whose entries are the spin channels;
* fallible code (python `assert`, `raise`) is modelled with `Except`.
-/

namespace PyCDFT

open Matrix

/-- Final value of the scalar Hirshfeld-style weight array built by
`ChargeTransferConstraint.update_w`: the code computes
`w = (donor.rhopro_r - acceptor.rhopro_r) / sample.rhopro_tot_r` elementwise
and then overwrites `w[rhopro_tot_r < eps] = 0.0`. -/
def weight_field {ι : Type} (d a t : ι → ℚ) (eps : ℚ) : ι → ℚ :=
  fun x => if t x < eps then 0 else (d x - a x) / t x

/-- The stored spin-resolved weight `self.w` set by
`ChargeTransferConstraint.update_w`: for `vspin == 1` the scalar field with a
leading singleton spin axis (`w[None, ...]`), otherwise two identical copies
(`np.append(w, w, axis=0).reshape(2, *w.shape)`). -/
def update_w {ι : Type} (vspin : ℕ) (d a t : ι → ℚ) (eps : ℚ) : List (ι → ℚ) :=
  if vspin = 1 then [weight_field d a t eps]
  else [weight_field d a t eps, weight_field d a t eps]

/-- The signed fragment indicator of `ChargeTransferConstraint.compute_w_grad_r`:
`1` if the atom is in the donor fragment, else `-1` if in the acceptor
fragment, else `0` (donor membership is tested first). -/
def delta {A : Type} [DecidableEq A] (donorAtoms acceptorAtoms : List A) (atom : A) : ℚ :=
  if atom ∈ donorAtoms then 1
  else if atom ∈ acceptorAtoms then -1
  else 0

/-- Final value of the weight gradient built by
`ChargeTransferConstraint.compute_w_grad_r`: the einsum
`"sijk,aijk,ijk->asijk"` of `delta - self.w`, the atom density gradient and
`1 / rhopro_tot_r`, followed by the masked overwrite
`w_grad[icart, ispin][rhopro_tot_r < eps] = 0.0` for every cartesian
direction and spin channel.  Indexed as (cartesian direction, spin channel
as list position, grid point). -/
def compute_w_grad_r {A ι : Type} [DecidableEq A] (donorAtoms acceptorAtoms : List A)
    (atom : A) (w : List (ι → ℚ)) (rho_grad_r : Fin 3 → ι → ℚ) (t : ι → ℚ) (eps : ℚ) :
    Fin 3 → List (ι → ℚ) :=
  fun icart => w.map fun ws => fun x =>
    if t x < eps then 0
    else (delta donorAtoms acceptorAtoms atom - ws x) * rho_grad_r icart x * (1 / t x)

/-- Modelled from the spec: `Fragment.rhopro_r`, the projected density of a
fragment, is the sum of the atomic reference densities of the fragment's
atoms (class docstring of `ChargeTransferConstraint`:
`sum over I in F of rho_I`); the computation itself lives in the sample /
fragment modules, which are not part of the analysed sources. -/
def rhopro_r {A ι : Type} (fragAtoms : List A) (rho : A → ι → ℚ) : ι → ℚ :=
  fun x => (fragAtoms.map fun I => rho I x).sum

/-- Modelled from the spec: `Sample.rhopro_tot_r`, the total projected
density, is the sum of the atomic reference densities over all atoms of the
geometry (class docstring of `ChargeTransferConstraint`: denominator
`sum over all I of rho_I`). -/
def rhopro_tot_r {A ι : Type} (allAtoms : List A) (rho : A → ι → ℚ) : ι → ℚ :=
  rhopro_r allAtoms rho

/-- Wavefunction data consumed by the coupling pipeline (`pycdft.common.wfc`
interface as used in `elcoupling.py`): spin/k-point/band counts, the flat
orbital indexing `skb2idx`, and the real orbital amplitudes `psi_r` on the
(flattened) wavefunction grid of `m` points. -/
structure Wavefunction (m : ℕ) where
  nspin : ℕ
  nkpt : ℕ
  nbnd : List (List ℕ)
  norb : ℕ
  skb2idx : ℕ → ℕ → ℕ → ℕ
  psi_r : ℕ → Fin m → ℚ

/-- Sample data consumed by the coupling pipeline: spin multiplicity, cell
volume, wavefunction, and the energies `Ed` (total constrained energy) and
`Ec` (constraint energy correction). -/
structure Sample (m : ℕ) where
  vspin : ℕ
  omega : ℚ
  wfc : Wavefunction m
  Ed : ℚ
  Ec : ℚ

/-- Solver state passed to `compute_elcoupling`: a converged sample, the
spin-resolved total constraint potential `Vc_tot` on the (flattened) density
grid of `n` points, and an identifier for the external DFT driver whose
`exit()` may be called.  -/
structure CDFTSolver (n m : ℕ) where
  sample : Sample m
  Vc_tot : ℕ → Fin n → ℚ
  dft_driver : ℕ

/-- Access `nbnd[ispin, ikpt]` of the band-count array (out-of-range access
defaults to 0; the analysed code only reads indices that exist in valid
configurations). -/
def nbndAt (nbnd : List (List ℕ)) (ispin ikpt : ℕ) : ℕ :=
  ((nbnd.getD ispin []).getD ikpt 0)

/-- Traversal order of the `for ispin in range(nspin)` /
`for ibnd, jbnd in np.ndindex(nbnd[ispin, 0], nbnd[ispin, 0])` loop nests of
`hab_get_O` and `hab_get_W`. -/
def skbPairsList (nspin : ℕ) (nbnd : List (List ℕ)) : List (ℕ × ℕ × ℕ) :=
  (List.range nspin).flatMap fun ispin =>
    (List.range (nbndAt nbnd ispin 0)).flatMap fun ibnd =>
      (List.range (nbndAt nbnd ispin 0)).map fun jbnd => (ispin, ibnd, jbnd)

/-- One in-place entry assignment `M[i, j] = v` on a square array (writes with
an out-of-range flat index, impossible for valid `skb2idx` maps, are no-ops). -/
def matUpdate {k : ℕ} (M : Matrix (Fin k) (Fin k) ℚ) (i j : ℕ) (v : ℚ) :
    Matrix (Fin k) (Fin k) ℚ :=
  Matrix.of fun a b => if a.val = i ∧ b.val = j then v else M a b

/-- `hab_get_O`: the orbital overlap matrix, starting from `np.zeros` and
filling `O[i, j] = (omega / m) * sum(conj(psi1[i]) * psi2[j])` over every
(spin, band, band) triple; wavefunctions are real so the conjugation is
dropped. -/
def hab_get_O {m : ℕ} (wfc1 wfc2 : Wavefunction m) (omega : ℚ) :
    Matrix (Fin wfc1.norb) (Fin wfc1.norb) ℚ :=
  (skbPairsList wfc1.nspin wfc1.nbnd).foldl
    (fun O tr =>
      matUpdate O (wfc1.skb2idx tr.1 0 tr.2.1) (wfc2.skb2idx tr.1 0 tr.2.2)
        ((omega / (m : ℚ)) *
          ∑ x : Fin m, wfc1.psi_r (wfc1.skb2idx tr.1 0 tr.2.1) x *
            wfc2.psi_r (wfc2.skb2idx tr.1 0 tr.2.2) x))
    0

/-- `hab_get_S`: the 2x2 diabatic state overlap matrix together with
`Odet = det O`; `S[0,0] = S[1,1] = 1`, `S[1,0] = Odet`,
`S[0,1] = conj(Odet) = Odet` (real arrays). -/
def hab_get_S {k : ℕ} (O : Matrix (Fin k) (Fin k) ℚ) :
    Matrix (Fin 2) (Fin 2) ℚ × ℚ :=
  (!![1, O.det; O.det, 1], O.det)

/-- The matrix inverse produced by `np.linalg.inv` on an invertible matrix,
expressed through the adjugate: `inv O = (det O)⁻¹ • adjugate O`.  The
pipeline only reaches this call when `det O ≠ 0` (otherwise `np.linalg.inv`
raises `LinAlgError`). -/
def np_inv {k : ℕ} (O : Matrix (Fin k) (Fin k) ℚ) : Matrix (Fin k) (Fin k) ℚ :=
  (O.det)⁻¹ • O.adjugate

/-- The cofactor matrix built inside `hab_get_W`:
`CT = Oinv @ (Odet * np.eye(norb)); C = CT.T`. -/
def hab_cofactor {k : ℕ} (O : Matrix (Fin k) (Fin k) ℚ) : Matrix (Fin k) (Fin k) ℚ :=
  (np_inv O * (O.det • (1 : Matrix (Fin k) (Fin k) ℚ)))ᵀ

/-- `hab_get_W`: the 2x2 weight-coupling matrix and the cofactor matrix.
`P12[i, j] = (omega / m) * sum(conj(psi1[i]) * Vc * psi2[j])` over every
(spin, band, band) triple, `Vab = trace(P12 @ C)`, `Vba = conj(Vab) = Vab`,
diagonal of `W` left zero. -/
def hab_get_W {m : ℕ} (wfc1 wfc2 : Wavefunction m) (Vc : Fin m → ℚ)
    (O : Matrix (Fin wfc1.norb) (Fin wfc1.norb) ℚ) (omega : ℚ) :
    Matrix (Fin 2) (Fin 2) ℚ × Matrix (Fin wfc1.norb) (Fin wfc1.norb) ℚ :=
  let C := hab_cofactor O
  let P12 :=
    (skbPairsList wfc1.nspin wfc1.nbnd).foldl
      (fun P tr =>
        matUpdate P (wfc1.skb2idx tr.1 0 tr.2.1) (wfc2.skb2idx tr.1 0 tr.2.2)
          ((omega / (m : ℚ)) *
            ∑ x : Fin m, wfc1.psi_r (wfc1.skb2idx tr.1 0 tr.2.1) x * Vc x *
              wfc2.psi_r (wfc2.skb2idx tr.1 0 tr.2.2) x))
      (0 : Matrix (Fin wfc1.norb) (Fin wfc1.norb) ℚ)
  let Vab := (P12 * C).trace
  (!![0, Vab; Vab, 0], C)

/-- `hab_get_H`: the 2x2 diabatic Hamiltonian; diagonal entries are the two
total energies `Ed`, the off-diagonal entry is the explicitly symmetrized
`0.5*(Fb*S[0,1] + Fa*S[1,0]) - 0.5*(W[0,1] + W[1,0])` with `Fa = Ed1 + Ec1`,
`Fb = Ed2 + Ec2`, and `H[1,0] = conj(H[0,1]) = H[0,1]`. -/
def hab_get_H {n m : ℕ} (solver1 solver2 : CDFTSolver n m)
    (S W : Matrix (Fin 2) (Fin 2) ℚ) : Matrix (Fin 2) (Fin 2) ℚ :=
  let Fa := solver1.sample.Ed + solver1.sample.Ec
  let Fb := solver2.sample.Ed + solver2.sample.Ec
  let h01 := (1/2) * (Fb * S 0 1 + Fa * S 1 0) - (1/2) * (W 0 1 + W 1 0)
  !![solver1.sample.Ed, h01; h01, solver2.sample.Ed]

/-- `hab_get_Hsymm`: Löwdin orthogonalization
`Hsymm = S^(-1/2) @ H @ S^(-1/2)`; the external
`scipy.linalg.fractional_matrix_power(S, -1/2)` is supplied as the
uninterpreted function `fracPow`. -/
def hab_get_Hsymm (fracPow : Matrix (Fin 2) (Fin 2) ℚ → Matrix (Fin 2) (Fin 2) ℚ)
    (H S : Matrix (Fin 2) (Fin 2) ℚ) : Matrix (Fin 2) (Fin 2) ℚ :=
  fracPow S * H * fracPow S

/-- The exceptions `compute_elcoupling` can raise: the two initial
`assert`/`raise NotImplementedError` configuration checks, and the
`LinAlgError` that `np.linalg.inv` raises inside `hab_get_W` on an exactly
singular overlap matrix. -/
inductive ElcError where
  | assertVspin
  | notImplVspin
  | assertNspin
  | assertNkpt
  | assertNbnd
  | notImplSpinKpt
  | linalgSingular
deriving DecidableEq

/-- Unsupported-configuration errors are every raised error except the
numerical `LinAlgError`. -/
def ElcError.isConfig : ElcError → Bool
  | .linalgSingular => false
  | _ => true

/-- Whether a pipeline outcome is an unsupported-configuration error. -/
def isConfigErrorB {α : Type} (r : Except ElcError α) : Bool :=
  match r with
  | .error e => e.isConfig
  | .ok _ => false

/-- Observable outcome of a successful `compute_elcoupling` call: `hab` is
the printed coupling value `|Hsymm[0, 1]|`, `ret` is the python function's
return value (the function body contains no `return` statement, so it always
returns `None`), and `closedDrivers` lists the drivers whose `exit()` was
called. -/
structure ElcouplingResult where
  hab : ℚ
  ret : Option ℚ
  closedDrivers : List ℕ
deriving DecidableEq

/-- `compute_elcoupling(solver1, solver2, close_dft_driver)`: the
configuration checks in source order, then the five-stage pipeline
O -> (S, Odet) -> (W, C) -> H -> Hsymm, printing `|Hsymm[0, 1]|` as the
coupling; finally, when `close_dft_driver` is set, `solver1.dft_driver.exit()`
is called.  `fracPow` and `ftrr` stand for the external
`scipy.linalg.fractional_matrix_power(-, -1/2)` and the FFT grid resampling
`ftrr` (density grid of `n` points to wavefunction grid of `m` points). -/
def compute_elcoupling {n m : ℕ}
    (fracPow : Matrix (Fin 2) (Fin 2) ℚ → Matrix (Fin 2) (Fin 2) ℚ)
    (ftrr : (Fin n → ℚ) → (Fin m → ℚ))
    (solver1 solver2 : CDFTSolver n m) (close_dft_driver : Bool) :
    Except ElcError ElcouplingResult :=
  if solver1.sample.vspin ≠ solver2.sample.vspin then .error .assertVspin
  else if solver1.sample.vspin ≠ 1 then .error .notImplVspin
  else
    let wfc1 := solver1.sample.wfc
    let wfc2 := solver2.sample.wfc
    if wfc1.nspin ≠ wfc2.nspin then .error .assertNspin
    else if wfc1.nkpt ≠ wfc2.nkpt then .error .assertNkpt
    else if wfc1.nbnd ≠ wfc2.nbnd then .error .assertNbnd
    else if ¬(wfc1.nspin = 1 ∨ wfc1.nspin = 2) ∨ wfc1.nkpt ≠ 1 then .error .notImplSpinKpt
    else
      let omega := solver1.sample.omega
      let O := hab_get_O wfc1 wfc2 omega
      let S := (hab_get_S O).1
      let Vc_dense : Fin n → ℚ := fun x =>
        (1/2) * (solver1.Vc_tot 0 x + solver2.Vc_tot 0 x)
      let Vc := ftrr Vc_dense
      if O.det = 0 then .error .linalgSingular
      else
        let W := (hab_get_W wfc1 wfc2 Vc O omega).1
        let H := hab_get_H solver1 solver2 S W
        let Hsymm := hab_get_Hsymm fracPow H S
        .ok { hab := |Hsymm 0 1|
              ret := none
              closedDrivers := if close_dft_driver then [solver1.dft_driver] else [] }

/-- Concrete single-orbital, single-grid-point wavefunction used to exercise
the pipeline: one spin channel, one k-point, one band, constant unit orbital. -/
def wfcC : Wavefunction 1 where
  nspin := 1
  nkpt := 1
  nbnd := [[1]]
  norb := 1
  skb2idx := fun _ _ ibnd => ibnd
  psi_r := fun _ _ => 1

/-- Concrete sample holding `wfcC` with unit cell volume and zero energies. -/
def sampleC : Sample 1 where
  vspin := 1
  omega := 1
  wfc := wfcC
  Ed := 0
  Ec := 0

/-- Concrete solver state 1: zero constraint potential, driver id 0. -/
def solverA : CDFTSolver 1 1 where
  sample := sampleC
  Vc_tot := fun _ _ => 0
  dft_driver := 0

/-- Concrete solver state 2: zero constraint potential, driver id 1
(a distinct external driver from state 1). -/
def solverB : CDFTSolver 1 1 where
  sample := sampleC
  Vc_tot := fun _ _ => 0
  dft_driver := 1

/-- A concrete stand-in for the external fractional matrix power. -/
def fracPowC : Matrix (Fin 2) (Fin 2) ℚ → Matrix (Fin 2) (Fin 2) ℚ := fun S => S

/-- A concrete stand-in for the external FFT grid resampling. -/
def ftrrC : (Fin 1 → ℚ) → (Fin 1 → ℚ) := fun v => v

section ConstraintTheorems

/-- Sum of a sublist of nonnegative rationals is at most the full sum. -/
theorem sublist_sum_le {l₁ l₂ : List ℚ} (h : l₁.Sublist l₂) (h0 : ∀ q ∈ l₂, 0 ≤ q) :
    l₁.sum ≤ l₂.sum :=
  List.Sublist.sum_le_sum h h0

/-- Every spin channel stored by `update_w` is the scalar weight field. -/
theorem mem_update_w {ι : Type} {vspin : ℕ} {d a t : ι → ℚ} {eps : ℚ} {w : ι → ℚ}
    (hw : w ∈ update_w vspin d a t eps) : w = weight_field d a t eps := by
  unfold update_w at hw
  split at hw
  · simpa using hw
  · simp only [List.mem_cons, List.not_mem_nil, or_false] at hw
    rcases hw with h | h <;> exact h

/-- C2: `update_w` computes, elementwise over the grid,
`w = (donor - acceptor) / total`, zeroed wherever `total < eps`; with
`vspin = 1` the stored field is the single channel `[w]`, and with two spin
channels both stored channels are the same field `w`. -/
theorem C2_update_w_characterization {ι : Type} (vspin : ℕ) (d a t : ι → ℚ) (eps : ℚ) :
    (∀ x, t x < eps → weight_field d a t eps x = 0) ∧
    (∀ x, ¬ t x < eps → weight_field d a t eps x = (d x - a x) / t x) ∧
    (vspin = 1 → update_w vspin d a t eps = [weight_field d a t eps]) ∧
    (vspin = 2 →
      update_w vspin d a t eps = [weight_field d a t eps, weight_field d a t eps]) := by
  refine ⟨fun x hx => if_pos hx, fun x hx => if_neg hx, fun h => ?_, fun h => ?_⟩
  · simp [update_w, h]
  · simp [update_w, h]

/-- Witness for C2 at a concrete one-point grid with `d = 3`, `a = 1`,
`t = 4`, `eps = 1`, two spin channels. -/
theorem C2_update_w_characterization_witness :
    (¬ ((fun _ : Fin 1 => (4 : ℚ)) 0 < 1)) ∧
    weight_field (fun _ : Fin 1 => (3 : ℚ)) (fun _ => 1) (fun _ => 4) 1 0 =
      ((fun _ : Fin 1 => (3 : ℚ)) 0 - (fun _ : Fin 1 => (1 : ℚ)) 0) /
        (fun _ : Fin 1 => (4 : ℚ)) 0 ∧
    update_w 2 (fun _ : Fin 1 => (3 : ℚ)) (fun _ => 1) (fun _ => 4) 1 =
      [weight_field (fun _ : Fin 1 => (3 : ℚ)) (fun _ => 1) (fun _ => 4) 1,
       weight_field (fun _ : Fin 1 => (3 : ℚ)) (fun _ => 1) (fun _ => 4) 1] :=
  ⟨by norm_num,
   (C2_update_w_characterization 2 _ _ _ 1).2.1 0 (by norm_num),
   (C2_update_w_characterization 2 _ _ _ 1).2.2.2 rfl⟩

/-- C7: for fixed fragment and total densities, swapping the donor and
acceptor arguments of `update_w` negates the stored weight field pointwise,
in every spin channel (masked points stay `0 = -0`). -/
theorem C7_update_w_antisymm {ι : Type} (vspin : ℕ) (d a t : ι → ℚ) (eps : ℚ) :
    update_w vspin a d t eps =
      (update_w vspin d a t eps).map (fun w => fun x => -(w x)) := by
  have h : weight_field a d t eps = fun x => -(weight_field d a t eps x) := by
    funext x
    by_cases hx : t x < eps
    · simp [weight_field, hx]
    · simp only [weight_field, if_neg hx]
      rw [← neg_div, neg_sub]
  unfold update_w
  split <;> simp [h]

/-- C4: `compute_w_grad_r` returns, per cartesian direction, one field per
spin channel of the stored weight, whose value off the mask is
`(delta - w[spin]) * grad_rho_atom[cart] / rho_total`, with `delta = 1` for a
donor atom, `-1` for an acceptor atom not in the donor, `0` for an atom in
neither fragment. -/
theorem C4_w_grad_formula {A ι : Type} [DecidableEq A] (dA aA : List A) (atom : A)
    (w : List (ι → ℚ)) (g : Fin 3 → ι → ℚ) (t : ι → ℚ) (eps : ℚ) (c : Fin 3)
    (s : ℕ) (x : ι) :
    (atom ∈ dA → delta dA aA atom = 1) ∧
    (atom ∉ dA → atom ∈ aA → delta dA aA atom = -1) ∧
    (atom ∉ dA → atom ∉ aA → delta dA aA atom = 0) ∧
    ((compute_w_grad_r dA aA atom w g t eps c).length = w.length) ∧
    (eps ≤ t x →
      ((compute_w_grad_r dA aA atom w g t eps c)[s]?).map (fun gr => gr x) =
        (w[s]?).map (fun ws => (delta dA aA atom - ws x) * g c x / t x)) := by
  refine ⟨fun h => by simp [delta, h], fun h h2 => by simp [delta, h, h2],
    fun h h2 => by simp [delta, h, h2], by simp [compute_w_grad_r], fun h => ?_⟩
  have hmask : ¬ t x < eps := not_lt.mpr h
  unfold compute_w_grad_r
  rw [List.getElem?_map]
  cases w[s]? with
  | none => rfl
  | some ws => simp [hmask, mul_one_div, div_eq_mul_inv]

/-- Witness for C4: donor atom `0`, one spin channel, one-point grid,
`w = 0`, gradient `2`, `t = 1`, `eps = 1`. -/
theorem C4_w_grad_formula_witness :
    ((0 : ℕ) ∈ [0]) ∧ delta [(0 : ℕ)] [] 0 = 1 ∧
    ((1 : ℚ) ≤ (fun _ : Fin 1 => (1 : ℚ)) 0) ∧
    ((compute_w_grad_r [(0 : ℕ)] [] 0 [fun _ : Fin 1 => (0 : ℚ)]
        (fun _ _ => 2) (fun _ => 1) 1 0)[0]?).map (fun gr => gr 0) =
      (([fun _ : Fin 1 => (0 : ℚ)])[0]?).map
        (fun ws => (delta [(0 : ℕ)] [] 0 - ws 0) * (fun _ : Fin 3 => fun _ : Fin 1 => (2 : ℚ)) 0 0 / (fun _ : Fin 1 => (1 : ℚ)) 0) :=
  ⟨by decide,
   (C4_w_grad_formula [(0 : ℕ)] [] 0 [fun _ : Fin 1 => (0 : ℚ)]
      (fun _ _ => 2) (fun _ => 1) 1 0 0 0).1 (by decide),
   by norm_num,
   (C4_w_grad_formula [(0 : ℕ)] [] 0 [fun _ : Fin 1 => (0 : ℚ)]
      (fun _ _ => 2) (fun _ => 1) 1 0 0 0).2.2.2.2 (by norm_num)⟩

/-- C10: an atom belonging to both fragments is treated as a donor atom:
the indicator is `1` (donor membership is tested first), and off the mask the
gradient field uses `delta = 1`. -/
theorem C10_overlap_donor_precedence {A ι : Type} [DecidableEq A] (dA aA : List A)
    (atom : A) (w : List (ι → ℚ)) (g : Fin 3 → ι → ℚ) (t : ι → ℚ) (eps : ℚ)
    (c : Fin 3) (s : ℕ) (x : ι) (hd : atom ∈ dA) (ha : atom ∈ aA) :
    delta dA aA atom = 1 ∧
    (eps ≤ t x →
      ((compute_w_grad_r dA aA atom w g t eps c)[s]?).map (fun gr => gr x) =
        (w[s]?).map (fun ws => (1 - ws x) * g c x / t x)) := by
  have hdelta : delta dA aA atom = 1 := by simp [delta, hd]
  refine ⟨hdelta, fun h => ?_⟩
  have hmask : ¬ t x < eps := not_lt.mpr h
  unfold compute_w_grad_r
  rw [List.getElem?_map]
  cases w[s]? with
  | none => rfl
  | some ws => simp [hmask, hdelta, mul_one_div, div_eq_mul_inv]

/-- Witness for C10: atom `0` is in both fragments; `delta = 1` and the
gradient formula uses it on a concrete one-point grid. -/
theorem C10_overlap_donor_precedence_witness :
    ((0 : ℕ) ∈ [0]) ∧ delta [(0 : ℕ)] [0] 0 = 1 ∧
    (((compute_w_grad_r [(0 : ℕ)] [0] 0 [fun _ : Fin 1 => (0 : ℚ)]
        (fun _ _ => 2) (fun _ => 1) 1 0)[0]?).map (fun gr => gr 0) =
      (([fun _ : Fin 1 => (0 : ℚ)])[0]?).map
        (fun ws => (1 - ws 0) * (fun _ : Fin 3 => fun _ : Fin 1 => (2 : ℚ)) 0 0 / (fun _ : Fin 1 => (1 : ℚ)) 0)) :=
  ⟨by decide,
   (C10_overlap_donor_precedence [(0 : ℕ)] [0] 0 [fun _ : Fin 1 => (0 : ℚ)]
      (fun _ _ => 2) (fun _ => 1) 1 0 0 0 (by decide) (by decide)).1,
   (C10_overlap_donor_precedence [(0 : ℕ)] [0] 0 [fun _ : Fin 1 => (0 : ℚ)]
      (fun _ _ => 2) (fun _ => 1) 1 0 0 0 (by decide) (by decide)).2 (by norm_num)⟩

/-- C5: at a grid point where the total projected density is below `eps`,
the scalar weight, every stored spin channel of `update_w`, and every
cartesian/spin component of `compute_w_grad_r` are exactly `0`. -/
theorem C5_eps_mask_zero {A ι : Type} [DecidableEq A] (dA aA : List A) (atom : A)
    (wl : List (ι → ℚ)) (g : Fin 3 → ι → ℚ) (d a t : ι → ℚ) (eps : ℚ) (vspin : ℕ)
    (x : ι) (h : t x < eps) :
    weight_field d a t eps x = 0 ∧
    (∀ w ∈ update_w vspin d a t eps, w x = 0) ∧
    (∀ c : Fin 3, ∀ gr ∈ compute_w_grad_r dA aA atom wl g t eps c, gr x = 0) := by
  refine ⟨if_pos h, fun w hw => ?_, fun c gr hgr => ?_⟩
  · rw [mem_update_w hw]
    exact if_pos h
  · rw [compute_w_grad_r, List.mem_map] at hgr
    obtain ⟨ws, _, rfl⟩ := hgr
    exact if_pos h

/-- Witness for C5 at a concrete one-point grid with `t = 0 < eps = 1`. -/
theorem C5_eps_mask_zero_witness :
    ((fun _ : Fin 1 => (0 : ℚ)) 0 < 1) ∧
    weight_field (fun _ : Fin 1 => (3 : ℚ)) (fun _ => 1) (fun _ => 0) 1 0 = 0 ∧
    (∀ w ∈ update_w 1 (fun _ : Fin 1 => (3 : ℚ)) (fun _ => 1) (fun _ => 0) 1, w 0 = 0) ∧
    (∀ c : Fin 3, ∀ gr ∈ compute_w_grad_r [(0 : ℕ)] [] 0 [fun _ : Fin 1 => (5 : ℚ)]
        (fun _ _ => 2) (fun _ => 0) 1 c, gr 0 = 0) :=
  ⟨by norm_num,
   (C5_eps_mask_zero [(0 : ℕ)] [] 0 [fun _ : Fin 1 => (5 : ℚ)] (fun _ _ => 2)
      (fun _ : Fin 1 => (3 : ℚ)) (fun _ => 1) (fun _ => 0) 1 1 0 (by norm_num)).1,
   (C5_eps_mask_zero [(0 : ℕ)] [] 0 [fun _ : Fin 1 => (5 : ℚ)] (fun _ _ => 2)
      (fun _ : Fin 1 => (3 : ℚ)) (fun _ => 1) (fun _ => 0) 1 1 0 (by norm_num)).2.1,
   (C5_eps_mask_zero [(0 : ℕ)] [] 0 [fun _ : Fin 1 => (5 : ℚ)] (fun _ _ => 2)
      (fun _ : Fin 1 => (3 : ℚ)) (fun _ => 1) (fun _ => 0) 1 1 0 (by norm_num)).2.2⟩

/-- C6: with the fragment and total densities built from per-atom reference
densities (donor and acceptor disjoint sub-collections of all atoms, each
atomic density nonnegative), every stored weight channel satisfies
`|w| ≤ 1` at every grid point where the total density is at least `eps > 0`. -/
theorem C6_weight_bounded {A ι : Type} (allAtoms donor acceptor : List A)
    (rho : A → ι → ℚ) (vspin : ℕ) (eps : ℚ) (x : ι)
    (hsub : (donor ++ acceptor).Subperm allAtoms)
    (hrho : ∀ I y, 0 ≤ rho I y)
    (heps : 0 < eps)
    (ht : eps ≤ rhopro_tot_r allAtoms rho x) :
    ∀ w ∈ update_w vspin (rhopro_r donor rho) (rhopro_r acceptor rho)
        (rhopro_tot_r allAtoms rho) eps, |w x| ≤ 1 := by
  set d := rhopro_r donor rho with hd
  set a := rhopro_r acceptor rho with ha
  set t := rhopro_tot_r allAtoms rho with htdef
  have htpos : 0 < t x := lt_of_lt_of_le heps ht
  have hd0 : 0 ≤ d x := List.sum_nonneg (by
    intro q hq
    rw [List.mem_map] at hq
    obtain ⟨I, _, rfl⟩ := hq
    exact hrho I x)
  have ha0 : 0 ≤ a x := List.sum_nonneg (by
    intro q hq
    rw [List.mem_map] at hq
    obtain ⟨I, _, rfl⟩ := hq
    exact hrho I x)
  have hsum : d x + a x ≤ t x := by
    obtain ⟨l, hperm, hsl⟩ := hsub
    have h1 : ((donor ++ acceptor).map fun I => rho I x).sum =
        (l.map fun I => rho I x).sum :=
      ((hperm.map fun I => rho I x).sum_eq).symm
    have h2 : (l.map fun I => rho I x).sum ≤ (allAtoms.map fun I => rho I x).sum := by
      refine sublist_sum_le (hsl.map fun I => rho I x) ?_
      intro q hq
      rw [List.mem_map] at hq
      obtain ⟨I, _, rfl⟩ := hq
      exact hrho I x
    have h3 : d x + a x = ((donor ++ acceptor).map fun I => rho I x).sum := by
      rw [List.map_append, List.sum_append]
      rfl
    rw [h3, h1]
    exact h2
  have hW : |weight_field d a t eps x| ≤ 1 := by
    unfold weight_field
    rw [if_neg (not_lt.mpr ht)]
    rw [abs_div, abs_of_pos htpos, div_le_one htpos]
    have : |d x - a x| ≤ d x + a x := abs_le.mpr ⟨by linarith, by linarith⟩
    linarith
  intro w hw
  rw [mem_update_w hw]
  exact hW

/-- Witness for C6: two atoms with unit constant densities, donor `[0]`,
acceptor `[1]`, total from both atoms, `eps = 1`, on a one-point grid. -/
theorem C6_weight_bounded_witness :
    (([0] ++ [1] : List ℕ).Subperm [0, 1]) ∧
    ((0 : ℚ) < 1) ∧
    ((1 : ℚ) ≤ rhopro_tot_r [0, 1] (fun _ : ℕ => fun _ : Fin 1 => (1 : ℚ)) 0) ∧
    (∀ w ∈ update_w 1 (rhopro_r [0] (fun _ : ℕ => fun _ : Fin 1 => (1 : ℚ)))
        (rhopro_r [1] (fun _ : ℕ => fun _ : Fin 1 => (1 : ℚ)))
        (rhopro_tot_r [0, 1] (fun _ : ℕ => fun _ : Fin 1 => (1 : ℚ))) 1, |w 0| ≤ 1) :=
  ⟨List.Subperm.refl _, by norm_num, by norm_num [rhopro_tot_r, rhopro_r],
   C6_weight_bounded [0, 1] [0] [1] (fun _ : ℕ => fun _ : Fin 1 => (1 : ℚ)) 1 1 0
     (List.Subperm.refl _) (fun _ _ => by norm_num) (by norm_num)
     (by norm_num [rhopro_tot_r, rhopro_r])⟩

end ConstraintTheorems

section CouplingTheorems

/-- C8: the cofactor matrix `C = transpose(inverse(O) * det(O))` built in the
W stage satisfies the adjugate identity `O * transpose(C) = det(O) * I` for
every invertible square matrix `O`. -/
theorem C8_cofactor_identity {k : ℕ} (O : Matrix (Fin k) (Fin k) ℚ) (h : O.det ≠ 0) :
    O * (hab_cofactor O)ᵀ = O.det • (1 : Matrix (Fin k) (Fin k) ℚ) := by
  have hC : (hab_cofactor O)ᵀ = O.adjugate := by
    unfold hab_cofactor np_inv
    rw [transpose_transpose, Matrix.smul_mul, Matrix.mul_smul, mul_one, smul_smul,
      inv_mul_cancel₀ h, one_smul]
  rw [hC, Matrix.mul_adjugate]

/-- Witness for C8 on the invertible matrix `[[1, 2], [3, 4]]`. -/
theorem C8_cofactor_identity_witness :
    ((!![1, 2; 3, 4] : Matrix (Fin 2) (Fin 2) ℚ).det ≠ 0) ∧
    (!![1, 2; 3, 4] : Matrix (Fin 2) (Fin 2) ℚ) * (hab_cofactor !![1, 2; 3, 4])ᵀ =
      (!![1, 2; 3, 4] : Matrix (Fin 2) (Fin 2) ℚ).det • 1 :=
  ⟨by norm_num [Matrix.det_fin_two_of],
   C8_cofactor_identity _ (by norm_num [Matrix.det_fin_two_of])⟩

/-- C3: under the data-model invariant that the wavefunction's spin channel
count equals its sample's spin multiplicity, `compute_elcoupling` raises an
unsupported-configuration error (the initial asserts / NotImplementedError,
before any matrix is built) exactly when the two spin multiplicities differ,
the spin multiplicity is not 1, a k-point count is not 1, or the per-spin
band counts of the two wavefunctions differ. -/
theorem C3_config_error_iff {n m : ℕ}
    (fracPow : Matrix (Fin 2) (Fin 2) ℚ → Matrix (Fin 2) (Fin 2) ℚ)
    (ftrr : (Fin n → ℚ) → (Fin m → ℚ))
    (s1 s2 : CDFTSolver n m) (close : Bool)
    (h1 : s1.sample.wfc.nspin = s1.sample.vspin)
    (h2 : s2.sample.wfc.nspin = s2.sample.vspin) :
    isConfigErrorB (compute_elcoupling fracPow ftrr s1 s2 close) = true ↔
      (s1.sample.vspin ≠ s2.sample.vspin ∨ s1.sample.vspin ≠ 1 ∨
       s1.sample.wfc.nkpt ≠ 1 ∨ s2.sample.wfc.nkpt ≠ 1 ∨
       s1.sample.wfc.nbnd ≠ s2.sample.wfc.nbnd) := by
  simp only [compute_elcoupling]
  split_ifs with c1 c2 c3 c4 c5 c6 c7 c8
  · exact iff_of_true rfl (Or.inl c1)
  · exact iff_of_true rfl (Or.inr (Or.inl c2))
  · exact absurd (h1.trans ((not_ne_iff.mp c1).trans h2.symm)) c3
  · refine iff_of_true rfl ?_
    by_cases hk : s1.sample.wfc.nkpt = 1
    · exact Or.inr (Or.inr (Or.inr (Or.inl fun h => c4 (hk.trans h.symm))))
    · exact Or.inr (Or.inr (Or.inl hk))
  · exact iff_of_true rfl (Or.inr (Or.inr (Or.inr (Or.inr c5))))
  · refine iff_of_true rfl ?_
    rcases c6 with hns | hk
    · exact absurd (Or.inl (h1.trans (not_ne_iff.mp c2))) hns
    · exact Or.inr (Or.inr (Or.inl hk))
  all_goals
    refine iff_of_false (by simp [isConfigErrorB, ElcError.isConfig]) ?_
  all_goals
    have hk1 : s1.sample.wfc.nkpt = 1 := not_ne_iff.mp fun h => c6 (Or.inr h)
  all_goals
    have hk2 : s2.sample.wfc.nkpt = 1 := (not_ne_iff.mp c4).symm.trans hk1
  all_goals
    intro hside
  all_goals
    rcases hside with hs | hs | hs | hs | hs <;>
      first
        | exact c1 hs
        | exact c2 hs
        | exact hs hk1
        | exact hs hk2
        | exact c5 hs

/-- Witness for C3 on the concrete valid configuration (spin multiplicity 1,
one k-point, matching band counts): no unsupported-configuration error. -/
theorem C3_config_error_iff_witness :
    (solverA.sample.wfc.nspin = solverA.sample.vspin) ∧
    (solverB.sample.wfc.nspin = solverB.sample.vspin) ∧
    (isConfigErrorB (compute_elcoupling fracPowC ftrrC solverA solverB true) = true ↔
      (solverA.sample.vspin ≠ solverB.sample.vspin ∨ solverA.sample.vspin ≠ 1 ∨
       solverA.sample.wfc.nkpt ≠ 1 ∨ solverB.sample.wfc.nkpt ≠ 1 ∨
       solverA.sample.wfc.nbnd ≠ solverB.sample.wfc.nbnd)) :=
  ⟨rfl, rfl, C3_config_error_iff fracPowC ftrrC solverA solverB true rfl rfl⟩

/-- Evaluation of the orbital overlap matrix on the concrete configuration:
one orbital, constant unit wavefunctions on a one-point grid give `O = [[1]]`. -/
theorem hab_get_O_evalC :
    hab_get_O solverA.sample.wfc solverB.sample.wfc solverA.sample.omega = !![1] := by
  have hl : skbPairsList solverA.sample.wfc.nspin solverA.sample.wfc.nbnd =
      [(0, 0, 0)] := by decide
  rw [hab_get_O, hl]
  simp only [List.foldl_cons, List.foldl_nil]
  ext a b
  fin_cases a <;> fin_cases b <;>
    simp [matUpdate, solverA, solverB, sampleC, wfcC]

/-- Evaluation of the full pipeline on the concrete configuration: the call
succeeds, the printed coupling `|Hsymm[0, 1]|` is `0`, the python return
value is `None`, and only state 1's driver is closed when the flag is set. -/
theorem compute_elcoupling_evalC (close : Bool) :
    compute_elcoupling fracPowC ftrrC solverA solverB close =
      .ok { hab := 0, ret := none,
            closedDrivers := if close then [0] else [] } := by
  have hO := hab_get_O_evalC
  have hdet : (hab_get_O solverA.sample.wfc solverB.sample.wfc
      solverA.sample.omega).det = 1 := by
    rw [hO, Matrix.det_fin_one_of]
  simp only [compute_elcoupling]
  rw [if_neg (by decide), if_neg (by decide), if_neg (by decide), if_neg (by decide),
    if_neg (by decide), if_neg (by decide), if_neg (by rw [hdet]; norm_num)]
  have hS : (hab_get_S (hab_get_O solverA.sample.wfc solverB.sample.wfc
      solverA.sample.omega)).1 = !![1, 1; 1, 1] := by
    rw [hab_get_S, hdet]
  have hW : (hab_get_W solverA.sample.wfc solverB.sample.wfc
      (ftrrC fun x => 1 / 2 * (solverA.Vc_tot 0 x + solverB.Vc_tot 0 x))
      (hab_get_O solverA.sample.wfc solverB.sample.wfc solverA.sample.omega)
      solverA.sample.omega).1 = !![0, 0; 0, 0] := by
    rw [hab_get_W]
    have hl : skbPairsList solverA.sample.wfc.nspin solverA.sample.wfc.nbnd =
        [(0, 0, 0)] := by decide
    rw [hl]
    simp only [List.foldl_cons, List.foldl_nil]
    have hP : matUpdate (0 : Matrix (Fin solverA.sample.wfc.norb)
          (Fin solverA.sample.wfc.norb) ℚ)
        (solverA.sample.wfc.skb2idx 0 0 0) (solverB.sample.wfc.skb2idx 0 0 0)
        ((solverA.sample.omega / ((1 : ℕ) : ℚ)) *
          ∑ x : Fin 1, solverA.sample.wfc.psi_r (solverA.sample.wfc.skb2idx 0 0 0) x *
            (ftrrC fun y => 1 / 2 * (solverA.Vc_tot 0 y + solverB.Vc_tot 0 y)) x *
            solverB.sample.wfc.psi_r (solverB.sample.wfc.skb2idx 0 0 0) x) =
        (0 : Matrix (Fin 1) (Fin 1) ℚ) := by
      ext a b
      fin_cases a <;> fin_cases b <;>
        simp [matUpdate, solverA, solverB, sampleC, wfcC, ftrrC]
    rw [hP]
    simp
  have hH : hab_get_H solverA solverB
      (hab_get_S (hab_get_O solverA.sample.wfc solverB.sample.wfc
        solverA.sample.omega)).1
      (hab_get_W solverA.sample.wfc solverB.sample.wfc
        (ftrrC fun x => 1 / 2 * (solverA.Vc_tot 0 x + solverB.Vc_tot 0 x))
        (hab_get_O solverA.sample.wfc solverB.sample.wfc solverA.sample.omega)
        solverA.sample.omega).1 = !![0, 0; 0, 0] := by
    rw [hab_get_H, hS, hW]
    norm_num [solverA, solverB, sampleC]
  rw [hH]
  have habs : |hab_get_Hsymm fracPowC (!![0, 0; 0, 0])
      (hab_get_S (hab_get_O solverA.sample.wfc solverB.sample.wfc
        solverA.sample.omega)).1 0 1| = 0 := by
    rw [hab_get_Hsymm, hS]
    norm_num [fracPowC, Matrix.mul_apply, Fin.sum_univ_two]
  rw [habs]
  rfl

/-- C1 (amended): when the configuration checks pass and the overlap matrix
is nonsingular, `compute_elcoupling` runs the five-stage pipeline
O -> (S, Odet) -> (W, C) -> H -> Hsymm and reports `|Hsymm[0, 1]|` as the
printed coupling value; the function itself returns `None` (it has no
`return` statement), so the scalar is exposed only through the printed
output. -/
theorem C1_pipeline_value {n m : ℕ}
    (fracPow : Matrix (Fin 2) (Fin 2) ℚ → Matrix (Fin 2) (Fin 2) ℚ)
    (ftrr : (Fin n → ℚ) → (Fin m → ℚ))
    (s1 s2 : CDFTSolver n m) (close : Bool)
    (h1 : s1.sample.vspin = s2.sample.vspin)
    (h2 : s1.sample.vspin = 1)
    (h3 : s1.sample.wfc.nspin = s2.sample.wfc.nspin)
    (h4 : s1.sample.wfc.nkpt = s2.sample.wfc.nkpt)
    (h5 : s1.sample.wfc.nbnd = s2.sample.wfc.nbnd)
    (h6 : s1.sample.wfc.nspin = 1 ∨ s1.sample.wfc.nspin = 2)
    (h7 : s1.sample.wfc.nkpt = 1)
    (h8 : (hab_get_O s1.sample.wfc s2.sample.wfc s1.sample.omega).det ≠ 0) :
    compute_elcoupling fracPow ftrr s1 s2 close =
      .ok { hab := |hab_get_Hsymm fracPow
              (hab_get_H s1 s2
                (hab_get_S (hab_get_O s1.sample.wfc s2.sample.wfc s1.sample.omega)).1
                (hab_get_W s1.sample.wfc s2.sample.wfc
                  (ftrr fun x => 1 / 2 * (s1.Vc_tot 0 x + s2.Vc_tot 0 x))
                  (hab_get_O s1.sample.wfc s2.sample.wfc s1.sample.omega)
                  s1.sample.omega).1)
              (hab_get_S (hab_get_O s1.sample.wfc s2.sample.wfc s1.sample.omega)).1
              0 1|
            ret := none
            closedDrivers := if close then [s1.dft_driver] else [] } := by
  simp only [compute_elcoupling]
  rw [if_neg (not_ne_iff.mpr h1), if_neg (not_ne_iff.mpr h2),
    if_neg (not_ne_iff.mpr h3), if_neg (not_ne_iff.mpr h4),
    if_neg (not_ne_iff.mpr h5),
    if_neg (fun hc => hc.elim (fun hn => hn h6) (fun hk => hk h7)),
    if_neg h8]

/-- Witness for C1 (amended) on the concrete valid configuration. -/
theorem C1_pipeline_value_witness :
    ((hab_get_O solverA.sample.wfc solverB.sample.wfc solverA.sample.omega).det ≠ 0) ∧
    compute_elcoupling fracPowC ftrrC solverA solverB true =
      .ok { hab := |hab_get_Hsymm fracPowC
              (hab_get_H solverA solverB
                (hab_get_S (hab_get_O solverA.sample.wfc solverB.sample.wfc
                  solverA.sample.omega)).1
                (hab_get_W solverA.sample.wfc solverB.sample.wfc
                  (ftrrC fun x => 1 / 2 * (solverA.Vc_tot 0 x + solverB.Vc_tot 0 x))
                  (hab_get_O solverA.sample.wfc solverB.sample.wfc solverA.sample.omega)
                  solverA.sample.omega).1)
              (hab_get_S (hab_get_O solverA.sample.wfc solverB.sample.wfc
                solverA.sample.omega)).1 0 1|
            ret := none
            closedDrivers := [solverA.dft_driver] } :=
  ⟨by rw [hab_get_O_evalC, Matrix.det_fin_one_of]; norm_num,
   C1_pipeline_value fracPowC ftrrC solverA solverB true rfl rfl rfl rfl rfl
     (Or.inl rfl) rfl (by rw [hab_get_O_evalC, Matrix.det_fin_one_of]; norm_num)⟩

/-- Counterexample to C1 as stated: on a concrete valid input the pipeline
produces the coupling value `0` (the printed `|Hsymm[0, 1]|`), but the
function's return value is `None`, not that scalar. -/
theorem C1_counterexample :
    (compute_elcoupling fracPowC ftrrC solverA solverB true).map ElcouplingResult.ret =
      Except.ok none ∧
    (compute_elcoupling fracPowC ftrrC solverA solverB true).map ElcouplingResult.hab =
      Except.ok 0 ∧
    ¬ ((compute_elcoupling fracPowC ftrrC solverA solverB true).map ElcouplingResult.ret =
        (compute_elcoupling fracPowC ftrrC solverA solverB true).map
          (fun r => some r.hab)) := by
  refine ⟨?_, ?_, ?_⟩
  · rw [compute_elcoupling_evalC]
    rfl
  · rw [compute_elcoupling_evalC]
    rfl
  · rw [compute_elcoupling_evalC]
    simp [Except.map]

/-- C9 (amended): on every successful run, the set of drivers whose `exit()`
was called is exactly state 1's driver when the flag is set, and empty when
it is not; state 2's driver is never closed (unless it is the same driver as
state 1's). -/
theorem C9_close_driver {n m : ℕ}
    (fracPow : Matrix (Fin 2) (Fin 2) ℚ → Matrix (Fin 2) (Fin 2) ℚ)
    (ftrr : (Fin n → ℚ) → (Fin m → ℚ))
    (s1 s2 : CDFTSolver n m) (close : Bool) (r : ElcouplingResult)
    (h : compute_elcoupling fracPow ftrr s1 s2 close = .ok r) :
    r.closedDrivers = if close then [s1.dft_driver] else [] := by
  simp only [compute_elcoupling] at h
  split_ifs at h with c1 c2 c3 c4 c5 c6 c7 c8
  all_goals
    first
      | exact Except.noConfusion h
      | (rw [← Except.ok.inj h]; simp [c8])

/-- Witness for C9 (amended) on the concrete valid configuration. -/
theorem C9_close_driver_witness :
    (compute_elcoupling fracPowC ftrrC solverA solverB true =
      .ok { hab := 0, ret := none, closedDrivers := [0] }) ∧
    (({ hab := 0, ret := none, closedDrivers := [0] } : ElcouplingResult).closedDrivers =
      if true then [solverA.dft_driver] else []) :=
  ⟨compute_elcoupling_evalC true,
   C9_close_driver fracPowC ftrrC solverA solverB true _ (compute_elcoupling_evalC true)⟩

/-- Counterexample to C9 as stated: on a concrete input with the flag set and
two distinct drivers (ids 0 and 1), only state 1's driver (id 0) is closed;
state 2's driver (id 1) is not among the closed drivers. -/
theorem C9_counterexample :
    (compute_elcoupling fracPowC ftrrC solverA solverB true).map
        ElcouplingResult.closedDrivers = Except.ok [0] ∧
    solverB.dft_driver = 1 ∧
    ¬ ((1 : ℕ) ∈ ([0] : List ℕ)) := by
  refine ⟨?_, rfl, by decide⟩
  rw [compute_elcoupling_evalC]
  rfl

end CouplingTheorems

end PyCDFT
